import Mathlib

set_option maxHeartbeats 1000000

/-!
Shallow embedding of the SH1106 OLED driver in `rgbled.py` (CircuitPython).

The framebuffer (`self.buffer`, a `bytearray`) is a list of byte values.
Coordinates are integers (Python `int`), framebuffer indices are naturals.
Bus traffic is modelled as the list of byte payloads handed to
`i2c.writeto` (the 7-bit address only routes a write and never changes its
payload, so it is not part of the model).  The blocking lock-acquisition
loops of `__init__` and `show` are modelled with explicit fuel, recording
the events they perform; `busio.I2C.try_lock` is a plain flag test that
succeeds exactly when the lock is currently free (it is not reentrant).
-/

/-- Bytes of the page-organized framebuffer (`self.buffer`). -/
abbrev Frame := List Nat

/-- Read a framebuffer byte (`self.buffer[i]`; the 0 default keeps the read
total — all indices the driver uses are in range). -/
def byteAt (buf : Frame) (i : Nat) : Nat := buf.getD i 0

namespace SH1106

/-- Construction-time configuration stored by `__init__`: `self.width`,
`self.height`, `self.col_offset`. -/
structure Cfg where
  width : Nat
  height : Nat
  col_offset : Nat

/-- `self.pages = height // 8`. -/
def pages (c : Cfg) : Nat := c.height / 8

/-- `self.buffer = bytearray(self.width * self.pages)` — zero-filled. -/
def init_buffer (c : Cfg) : Frame := List.replicate (c.width * pages c) 0

/-- `fill(color)`: `c = 0xFF if color else 0x00`, then every byte of the
buffer is overwritten with `c`. -/
def fill (buf : Frame) (color : Nat) : Frame :=
  buf.map (fun _ => if color ≠ 0 then 0xFF else 0x00)

/-- `pixel(x, y, color)`.  The guard is the bounds check of line 69; for the
in-range case `y ≥ 0`, so Python's `y // 8` is `y.toNat / 8` and `y & 7` is
`y.toNat &&& 7`.  `self.buffer[idx] |= (1 << bit)` is the `set` with `|||`;
`self.buffer[idx] &= ~(1 << bit)` on a bytearray cell (value < 0x100,
`bit < 8`) equals `&&& (0xFF ^^^ (1 <<< bit))`. -/
def pixel (c : Cfg) (buf : Frame) (x y : Int) (color : Nat) : Frame :=
  if 0 ≤ x ∧ x < (c.width : Int) ∧ 0 ≤ y ∧ y < (c.height : Int) then
    let page := y.toNat / 8
    let bit := y.toNat &&& 7
    let idx := page * c.width + x.toNat
    if color ≠ 0 then
      buf.set idx (byteAt buf idx ||| (1 <<< bit))
    else
      buf.set idx (byteAt buf idx &&& (0xFF ^^^ (1 <<< bit)))
  else
    buf

/-- `blit_glyph(x, y, glyph_cols)`: `for cx, col_byte in enumerate(glyph_cols):
for bit in range(7): px_on = (col_byte >> bit) & 1; pixel(x+cx, y+bit, px_on)`. -/
def blit_glyph (c : Cfg) (buf : Frame) (x y : Int) (glyph_cols : List Nat) : Frame :=
  glyph_cols.enum.foldl
    (fun b (p : Nat × Nat) =>
      (List.range 7).foldl
        (fun b2 (bit : Nat) => pixel c b2 (x + (p.1 : Int)) (y + (bit : Int)) ((p.2 >>> bit) &&& 1))
        b)
    buf

/-- `text(s, x, y, font)`: per character, `cols = font.get(ch)`, falling back
to `font.get("?")` when missing; then `blit_glyph(x, y, cols)` and `x += 6`.
If both lookups miss, Python's `blit_glyph(x, y, None)` raises, modelled as
`none`. -/
def text (c : Cfg) (buf : Frame) (s : List Char) (x y : Int)
    (font : Char → Option (List Nat)) : Option Frame :=
  match s with
  | [] => some buf
  | ch :: rest =>
    match (match font ch with | some g => some g | none => font '?') with
    | none => none
    | some cols => text c (blit_glyph c buf x y cols) rest (x + 6) y font

/-- `_cmd(*bytes_)`: one bus write `bytes([0x00, *bytes_])` — control byte
0x00 then the command bytes. -/
def cmdWrite (payload : List Nat) : List Nat := 0x00 :: payload

/-- `_data(chunk)`: one bus write `b"\x40" + bytes(chunk)` — control byte
0x40 then the framebuffer chunk. -/
def dataWrite (chunk : List Nat) : List Nat := 0x40 :: chunk

/-- The chunking loop of `show`: slices `line[i:i+16]` for
`i = 0, 16, 32, ...` (`chunk_size = 16`). -/
def chunks16 (l : List Nat) : List (List Nat) :=
  if h : l = [] then [] else l.take 16 :: chunks16 (l.drop 16)
termination_by l.length
decreasing_by
  have hpos : 0 < l.length := List.length_pos.mpr h
  simp only [List.length_drop]
  omega

/-- One iteration of the page loop in `show` (lines 101-116): the three
command writes, then the chunked data writes of
`line = self.buffer[start:end]`. -/
def show_page (c : Cfg) (buf : Frame) (page : Nat) : List (List Nat) :=
  cmdWrite [0xB0 + page]
    :: cmdWrite [0x00 ||| (c.col_offset &&& 0x0F)]
    :: cmdWrite [0x10 ||| ((c.col_offset >>> 4) &&& 0x0F)]
    :: (chunks16 ((buf.drop (page * c.width)).take c.width)).map dataWrite

/-- All bus writes of one `show()` call (in order), page by page. -/
def show_writes (c : Cfg) (buf : Frame) : List (List Nat) :=
  ((List.range (pages c)).map (show_page c buf)).flatten

/-- The command payloads issued by `_init_display` (lines 44-58), in order.
The segment-remap and COM-scan opcodes are hard-coded to the mirrored
variants 0xA1 / 0xC8 (comments: "mirror horizontally", "flip vertically"). -/
def init_cmds (height : Nat) : List (List Nat) :=
  [[0xAE],
   [0xD5, 0x80],
   [0xA8, height - 1],
   [0xD3, 0x00],
   [0x40],
   [0xAD, 0x8B],
   [0xA1],
   [0xC8],
   [0xDA, 0x12],
   [0x81, 0x7F],
   [0xD9, 0xF1],
   [0xDB, 0x40],
   [0xA4],
   [0xA6],
   [0xAF]]

/-- The bring-up sequence exactly as the specification words it, with the two
mirror flags as parameters: segment remap `0xA1` when horizontally mirrored
else `0xA0`, COM scan `0xC8` when vertically mirrored else `0xC0`. -/
def init_cmds_spec (height : Nat) (hMirror vMirror : Bool) : List (List Nat) :=
  [[0xAE],
   [0xD5, 0x80],
   [0xA8, height - 1],
   [0xD3, 0x00],
   [0x40],
   [0xAD, 0x8B],
   [if hMirror then 0xA1 else 0xA0],
   [if vMirror then 0xC8 else 0xC0],
   [0xDA, 0x12],
   [0x81, 0x7F],
   [0xD9, 0xF1],
   [0xDB, 0x40],
   [0xA4],
   [0xA6],
   [0xAF]]

/-- Observable events of the driver: lock attempts (with their outcome), the
unlock, bus writes (full payload, control byte included), and the
framebuffer-wide `fill`. -/
inductive Event where
  | tryLock (ok : Bool)
  | unlock
  | busW (data : List Nat)
  | fillBuf (color : Nat)
deriving DecidableEq

/-- `i2c.try_lock()`: the CircuitPython bus lock is a plain flag, so the
attempt succeeds exactly when the lock is currently free — it is not
reentrant, a holder's own attempt fails. -/
def try_lock (locked : Bool) : Bool := !locked

/-- `while not self.i2c.try_lock(): pass`, run single-threaded with fuel:
nothing can change the lock while the loop spins.  Returns the attempt
events performed and whether the loop exited. -/
def spin_try_lock (locked : Bool) : Nat → List Event × Bool
  | 0 => ([], false)
  | fuel + 1 =>
    if try_lock locked then ([Event.tryLock true], true)
    else (Event.tryLock false :: (spin_try_lock locked fuel).1, (spin_try_lock locked fuel).2)

/-- `show()` as an event trace: spin for the lock, then (when acquired) the
page writes followed by the `finally: self.i2c.unlock()`.  Second component:
whether the call returned. -/
def show_events (c : Cfg) (buf : Frame) (locked : Bool) (fuel : Nat) : List Event × Bool :=
  if (spin_try_lock locked fuel).2 then
    ((spin_try_lock locked fuel).1 ++ (show_writes c buf).map Event.busW ++ [Event.unlock], true)
  else ((spin_try_lock locked fuel).1, false)

/-- `__init__` as an event trace: spin for the lock (line 25), then
`_init_display()` — the 15 bring-up commands, `fill(0)`, and `show()` with
the lock still held — and, only if that returns, the
`finally: self.i2c.unlock()` of line 30.  Second component: whether
construction completed. -/
def init_events (c : Cfg) (locked : Bool) (fuel : Nat) : List Event × Bool :=
  if (spin_try_lock locked fuel).2 then
    if (show_events c (fill (init_buffer c) 0) true fuel).2 then
      ((spin_try_lock locked fuel).1
          ++ (init_cmds c.height).map (fun p => Event.busW (cmdWrite p))
          ++ Event.fillBuf 0 :: (show_events c (fill (init_buffer c) 0) true fuel).1
          ++ [Event.unlock],
        true)
    else
      ((spin_try_lock locked fuel).1
          ++ (init_cmds c.height).map (fun p => Event.busW (cmdWrite p))
          ++ Event.fillBuf 0 :: (show_events c (fill (init_buffer c) 0) true fuel).1,
        false)
  else ((spin_try_lock locked fuel).1, false)

/-- Bit read-back from the framebuffer, at the layout the driver uses:
byte `(y div 8) * width + x`, bit `y mod 8` (LSB = top row of the page). -/
def readBit (c : Cfg) (buf : Frame) (x y : Int) : Nat :=
  (byteAt buf (y.toNat / 8 * c.width + x.toNat) >>> (y.toNat % 8)) &&& 1

/-- A list of `pixel` writes `(x, y, color)` applied left to right. -/
def applyWrites (c : Cfg) (buf : Frame) (ws : List (Int × Int × Nat)) : Frame :=
  ws.foldl (fun b w => pixel c b w.1 w.2.1 w.2.2) buf

/-- The 35 pixel writes `blit_glyph` performs, in order. -/
def glyph_writes (x y : Int) (glyph_cols : List Nat) : List (Int × Int × Nat) :=
  (glyph_cols.enum.map (fun (p : Nat × Nat) =>
    (List.range 7).map (fun (bit : Nat) => ((x + (p.1 : Int), y + (bit : Int), (p.2 >>> bit) &&& 1))))).flatten

/-- The last write of the list targeting `(x, y)`, if any (later writes take
precedence). -/
def lastWrite (x y : Int) : List (Int × Int × Nat) → Option Nat
  | [] => none
  | w :: ws =>
    match lastWrite x y ws with
    | some v => some v
    | none => if w.1 = x ∧ w.2.1 = y then some w.2.2 else none

end SH1106

/-- `FONT_5x7` (lines 125-136): 5 column bytes per character, LSB = top. -/
def FONT_5x7 : Char → Option (List Nat)
  | 'H' => some [0x7F, 0x08, 0x08, 0x08, 0x7F]
  | 'e' => some [0x3C, 0x4A, 0x4A, 0x4A, 0x30]
  | 'l' => some [0x00, 0x41, 0x7F, 0x40, 0x00]
  | 'o' => some [0x38, 0x44, 0x44, 0x44, 0x38]
  | ' ' => some [0x00, 0x00, 0x00, 0x00, 0x00]
  | 'W' => some [0x7C, 0x02, 0x0C, 0x02, 0x7C]
  | 'r' => some [0x7C, 0x08, 0x04, 0x04, 0x08]
  | 'd' => some [0x38, 0x44, 0x44, 0x24, 0x7C]
  | '!' => some [0x00, 0x00, 0x5F, 0x00, 0x00]
  | '?' => some [0x02, 0x01, 0x59, 0x09, 0x06]
  | _ => none

/-- The 128x64, column-offset-2 configuration the script constructs
(line 152). -/
def cfg128 : SH1106.Cfg := ⟨128, 64, 2⟩

/-- A small legal configuration (8x8, one page) for concrete witnesses. -/
def cfg8 : SH1106.Cfg := ⟨8, 8, 0⟩

/-- `text = "Hello World"` (line 155). -/
def hello_text : List Char := ['H', 'e', 'l', 'l', 'o', ' ', 'W', 'o', 'r', 'l', 'd']

/-- `text_px_w = len(text) * 6 - 1` (line 156), on Python integers. -/
def text_px_w (s : List Char) : Int := (s.length : Int) * 6 - 1

/-- `x = max(0, (disp.width - text_px_w) // 2)` (line 158); Python `//` is
floor division, `Int.fdiv`. -/
def centered_x (c : SH1106.Cfg) (s : List Char) : Int :=
  max 0 (Int.fdiv ((c.width : Int) - text_px_w s) 2)

/-- The centred-offset formula exactly as the specification words it:
`max(0, (W - w) / 2)` under integer floor division. -/
def centered_offset_spec (Wd w : Int) : Int := max 0 (Int.fdiv (Wd - w) 2)

/-! ## Helper lemmas -/

namespace SH1106

theorem set_getD_self : ∀ (l : Frame) (i v : Nat), i < l.length → byteAt (l.set i v) i = v
  | [], _, _, h => absurd h (by simp)
  | _ :: _, 0, _, _ => rfl
  | _ :: l, i + 1, v, h => set_getD_self l i v (by simpa using h)

theorem set_getD_ne : ∀ (l : Frame) (i j v : Nat), i ≠ j → byteAt (l.set i v) j = byteAt l j
  | [], _, _, _, _ => by simp [byteAt]
  | _ :: _, 0, 0, _, h => absurd rfl h
  | _ :: _, 0, _ + 1, _, _ => rfl
  | _ :: _, _ + 1, 0, _, _ => rfl
  | _ :: l, i + 1, j + 1, v, h => set_getD_ne l i j v (fun e => h (by rw [e]))

theorem and_seven (n : Nat) : n &&& 7 = n % 8 := by
  have h := Nat.and_pow_two_sub_one_eq_mod n 3
  simpa using h

theorem shiftRight_and_one (n k : Nat) : (n >>> k) &&& 1 = if n.testBit k then 1 else 0 := by
  rw [Nat.and_one_is_mod, Nat.shiftRight_eq_div_pow, Nat.testBit_to_div_mod]
  rcases Nat.mod_two_eq_zero_or_one (n / 2 ^ k) with h | h <;> simp [h]

theorem testBit_255 (k : Nat) (h : k < 8) : Nat.testBit 255 k = true := by
  interval_cases k <;> decide

theorem pixel_length (c : Cfg) (buf : Frame) (x y : Int) (color : Nat) :
    (pixel c buf x y color).length = buf.length := by
  rw [pixel]
  split
  · dsimp only
    split <;> apply List.length_set
  · rfl

theorem pixel_in_range (c : Cfg) (buf : Frame) (x y : Int) (color : Nat)
    (h : 0 ≤ x ∧ x < (c.width : Int) ∧ 0 ≤ y ∧ y < (c.height : Int)) :
    pixel c buf x y color =
      if color ≠ 0 then
        buf.set (y.toNat / 8 * c.width + x.toNat)
          (byteAt buf (y.toNat / 8 * c.width + x.toNat) ||| (1 <<< (y.toNat &&& 7)))
      else
        buf.set (y.toNat / 8 * c.width + x.toNat)
          (byteAt buf (y.toNat / 8 * c.width + x.toNat) &&& (0xFF ^^^ (1 <<< (y.toNat &&& 7)))) := by
  rw [pixel, if_pos h]

theorem idx_lt (c : Cfg) (x y : Int)
    (h : 0 ≤ x ∧ x < (c.width : Int) ∧ 0 ≤ y ∧ y < (c.height : Int))
    (h8 : c.height % 8 = 0) :
    y.toNat / 8 * c.width + x.toNat < c.width * (c.height / 8) := by
  obtain ⟨hx0, hx, hy0, hy⟩ := h
  have hxw : x.toNat < c.width := by omega
  have hyh : y.toNat < c.height := by omega
  have hdvd : 8 ∣ c.height := Nat.dvd_of_mod_eq_zero h8
  have hp : y.toNat / 8 < c.height / 8 := Nat.div_lt_div_of_lt_of_dvd hdvd hyh
  calc y.toNat / 8 * c.width + x.toNat
      < (y.toNat / 8 + 1) * c.width := by rw [Nat.succ_mul]; omega
    _ ≤ (c.height / 8) * c.width := mul_le_mul_right' (by omega) _
    _ = c.width * (c.height / 8) := Nat.mul_comm _ _

end SH1106

/-! ## Claim theorems (first group) -/

namespace SH1106

/-- C1: for every in-range coordinate `(x, y)`, `pixel x y 1` sets bit
`y &&& 7` of framebuffer byte `(y >>> 3) * width + x`, and every other byte
of the framebuffer is unchanged. -/
theorem pixel_one_sets_bit_preserves_rest (c : Cfg) (buf : Frame) (x y : Int)
    (h : 0 ≤ x ∧ x < (c.width : Int) ∧ 0 ≤ y ∧ y < (c.height : Int))
    (h8 : c.height % 8 = 0) (hlen : buf.length = c.width * (c.height / 8)) :
    Nat.testBit (byteAt (pixel c buf x y 1) (y.toNat >>> 3 * c.width + x.toNat))
        (y.toNat &&& 7) = true
    ∧ ∀ j, j ≠ y.toNat >>> 3 * c.width + x.toNat →
        byteAt (pixel c buf x y 1) j = byteAt buf j := by
  have hsh : y.toNat >>> 3 = y.toNat / 8 := by
    simp [Nat.shiftRight_eq_div_pow]
  have hidx : y.toNat / 8 * c.width + x.toNat < buf.length := by
    rw [hlen]; exact idx_lt c x y h h8
  rw [pixel_in_range c buf x y 1 h, if_pos (by norm_num : (1 : Nat) ≠ 0)]
  constructor
  · rw [hsh, set_getD_self _ _ _ hidx, Nat.shiftLeft_eq, one_mul, Nat.testBit_or,
      Nat.testBit_two_pow_self, Bool.or_true]
  · intro j hj
    rw [hsh] at hj
    exact set_getD_ne _ _ _ _ (Ne.symm hj)

/-- Witness for C1: 128x64 driver, zero buffer, pixel (5, 13). -/
theorem pixel_one_sets_bit_preserves_rest_witness :
    Nat.testBit (byteAt (pixel cfg128 (List.replicate 1024 0) 5 13 1)
        ((13 : Int).toNat >>> 3 * 128 + (5 : Int).toNat)) ((13 : Int).toNat &&& 7) = true :=
  (pixel_one_sets_bit_preserves_rest cfg128 (List.replicate 1024 0) 5 13
    (by norm_num [cfg128]) (by norm_num [cfg128]) (by rw [List.length_replicate]; rfl)).1

/-- C2: for every coordinate outside the panel and every color, `pixel` is a
silent no-op: the framebuffer is returned bit-for-bit unchanged. -/
theorem pixel_out_of_range_noop (c : Cfg) (buf : Frame) (x y : Int) (color : Nat)
    (h : ¬(0 ≤ x ∧ x < (c.width : Int) ∧ 0 ≤ y ∧ y < (c.height : Int))) :
    pixel c buf x y color = buf := by
  rw [pixel, if_neg h]

/-- Witness for C2: (x, y) = (-1, 70) on the 128x64 driver. -/
theorem pixel_out_of_range_noop_witness :
    pixel cfg128 (List.replicate 1024 0) (-1) 70 5 = List.replicate 1024 0 :=
  pixel_out_of_range_noop cfg128 (List.replicate 1024 0) (-1) 70 5 (by decide)

/-- C8: on any valid configuration (height a multiple of 8) and any buffer of
the construction-time length, `fill 1` then `fill 0` yields the all-zero
buffer of length `width * (height / 8)`; `fill` never changes the length and
the constructed buffer has exactly that length. -/
theorem fill_one_then_zero (c : Cfg) (buf : Frame) (h8 : c.height % 8 = 0)
    (hlen : buf.length = c.width * (c.height / 8)) :
    fill (fill buf 1) 0 = List.replicate (c.width * (c.height / 8)) 0
    ∧ (fill (fill buf 1) 0).length = buf.length
    ∧ (init_buffer c).length = c.width * (c.height / 8) := by
  refine ⟨?_, ?_, ?_⟩
  · rw [← hlen]
    unfold fill
    rw [List.map_map]
    have hc : ((fun _ => if (0 : Nat) ≠ 0 then 0xFF else 0x00) ∘
        fun _ => if (1 : Nat) ≠ 0 then 0xFF else 0x00) = (fun (_ : Nat) => (0 : Nat)) := by
      funext a; norm_num
    rw [hc, List.map_const']
  · simp [fill]
  · simp [init_buffer, pages]

/-- Witness for C8 on the 128x64 configuration. -/
theorem fill_one_then_zero_witness :
    fill (fill (init_buffer cfg128) 1) 0 = List.replicate 1024 0 :=
  (fill_one_then_zero cfg128 (init_buffer cfg128) (by decide)
    (by rw [init_buffer, List.length_replicate]; rfl)).1

/-- C9: `text` resolves each character through the font mapping; a present
character renders its own glyph, a missing character renders the designated
default glyph, which for `FONT_5x7` is the one mapped to the question mark. -/
theorem text_lookup_fallback (c : Cfg) (buf : Frame) (s : List Char) (x y : Int) :
    (∀ ch g, FONT_5x7 ch = some g →
        text c buf (ch :: s) x y FONT_5x7
          = text c (blit_glyph c buf x y g) s (x + 6) y FONT_5x7)
    ∧ (∀ ch, FONT_5x7 ch = none →
        text c buf (ch :: s) x y FONT_5x7
          = text c (blit_glyph c buf x y [0x02, 0x01, 0x59, 0x09, 0x06]) s (x + 6) y FONT_5x7)
    ∧ FONT_5x7 '?' = some [0x02, 0x01, 0x59, 0x09, 0x06] := by
  refine ⟨?_, ?_, by decide⟩
  · intro ch g hg
    simp only [text, hg]
  · intro ch hch
    have hq : FONT_5x7 '?' = some [0x02, 0x01, 0x59, 0x09, 0x06] := by decide
    simp only [text, hch, hq]

/-- Witness for C9: the character z is not in `FONT_5x7`. -/
theorem text_lookup_fallback_witness :
    text cfg8 [] ['z'] 0 0 FONT_5x7
      = text cfg8 (blit_glyph cfg8 [] 0 0 [0x02, 0x01, 0x59, 0x09, 0x06]) [] (0 + 6) 0 FONT_5x7 :=
  (text_lookup_fallback cfg8 [] [] 0 0).2.1 'z' (by decide)

end SH1106

/-- C10: the centred-text offset the script computes is exactly
`max 0 ((W - w) / 2)` under floor division with `w = 6 * n - 1` for an
n-character string; for "Hello World" on width 128 it is 31. -/
theorem centered_x_matches_spec :
    (∀ (c : SH1106.Cfg) (s : List Char),
        centered_x c s = centered_offset_spec (c.width : Int) (6 * (s.length : Int) - 1))
    ∧ centered_x cfg128 hello_text = 31 := by
  constructor
  · intro c s
    unfold centered_x centered_offset_spec text_px_w
    rw [Int.mul_comm]
  · decide

/-! ## Chunking lemmas and the show trace (C3) -/

namespace SH1106

theorem chunks16_flatten (l : List Nat) : (chunks16 l).flatten = l := by
  induction l using chunks16.induct with
  | case1 => simp [chunks16]
  | case2 l h ih =>
    rw [chunks16, dif_neg h, List.flatten_cons, ih, List.take_append_drop]

theorem chunks16_len_le (l : List Nat) : ∀ ch ∈ chunks16 l, ch.length ≤ 16 := by
  induction l using chunks16.induct with
  | case1 => simp [chunks16]
  | case2 l h ih =>
    rw [chunks16, dif_neg h]
    intro ch hch
    rcases List.mem_cons.mp hch with hc | hc
    · subst hc; simp [List.length_take]
    · exact ih ch hc

theorem chunks16_count (l : List Nat) : (chunks16 l).length = (l.length + 15) / 16 := by
  induction l using chunks16.induct with
  | case1 => simp [chunks16]
  | case2 l h ih =>
    have hpos : 0 < l.length := List.length_pos.mpr h
    rw [chunks16, dif_neg h, List.length_cons, ih, List.length_drop]
    omega

/-- C3: on the `width=128, height=64, colOffset=2` configuration, one `show()`
emits exactly 8 page blocks in page order; each block is the three command
writes with payloads `0xB0+page`, `0x02`, `0x10` followed by the data writes,
and per page those data writes are exactly 8 chunks of at most 16 bytes whose
concatenation is exactly that page's 128 framebuffer bytes. -/
theorem show_writes_cfg128 (buf : Frame) (hlen : buf.length = 1024) :
    show_writes cfg128 buf =
      ((List.range 8).map (fun page =>
        [0x00, 0xB0 + page] :: [0x00, 0x02] :: [0x00, 0x10]
          :: (chunks16 ((buf.drop (page * 128)).take 128)).map (fun ch => 0x40 :: ch))).flatten
    ∧ ∀ page, page < 8 →
        (chunks16 ((buf.drop (page * 128)).take 128)).length = 8
        ∧ (∀ ch ∈ chunks16 ((buf.drop (page * 128)).take 128), ch.length ≤ 16)
        ∧ (chunks16 ((buf.drop (page * 128)).take 128)).flatten = (buf.drop (page * 128)).take 128
        ∧ ((buf.drop (page * 128)).take 128).length = 128 := by
  constructor
  · rfl
  · intro page hp
    have hline : ((buf.drop (page * 128)).take 128).length = 128 := by
      rw [List.length_take, List.length_drop, hlen]; omega
    refine ⟨?_, chunks16_len_le _, chunks16_flatten _, hline⟩
    rw [chunks16_count, hline]

/-- Witness for C3 on the all-zero framebuffer. -/
theorem show_writes_cfg128_witness :
    show_writes cfg128 (List.replicate 1024 0) =
      ((List.range 8).map (fun page =>
        [0x00, 0xB0 + page] :: [0x00, 0x02] :: [0x00, 0x10]
          :: (chunks16 (((List.replicate 1024 0).drop (page * 128)).take 128)).map
              (fun ch => 0x40 :: ch))).flatten :=
  (show_writes_cfg128 (List.replicate 1024 0) (by rw [List.length_replicate])).1

/-! ## Lock and construction traces (C4, C5, C6) -/

theorem spin_locked (fuel : Nat) :
    spin_try_lock true fuel = (List.replicate fuel (Event.tryLock false), false) := by
  induction fuel with
  | zero => rfl
  | succ n ih => simp [spin_try_lock, try_lock, ih, List.replicate_succ]

theorem spin_free (fuel : Nat) : spin_try_lock false (fuel + 1) = ([Event.tryLock true], true) := by
  simp [spin_try_lock, try_lock]

/-- C4: every construction (with the lock initially free and any spin fuel)
issues, after the successful lock attempt, exactly the bring-up command
writes of the specification's state machine with both mirror flags set —
opcodes `0xAE; 0xD5,0x80; 0xA8,height-1; 0xD3,0x00; 0x40; 0xAD,0x8B; 0xA1;
0xC8; 0xDA,0x12; 0x81,0x7F; 0xD9,0xF1; 0xDB,0x40; 0xA4; 0xA6; 0xAF` — in
that order, each as a `0x00`-prefixed command transaction, before anything
else happens on the bus. -/
theorem init_issues_spec_bringup (c : Cfg) (fuel : Nat) :
    (init_events c false (fuel + 1)).1 =
      Event.tryLock true
        :: ((init_cmds_spec c.height true true).map (fun p => Event.busW (cmdWrite p))
            ++ Event.fillBuf 0 :: List.replicate (fuel + 1) (Event.tryLock false)) := by
  have hspec : init_cmds c.height = init_cmds_spec c.height true true := rfl
  simp [init_events, show_events, spin_free, spin_locked, hspec]

/-- C5 (code-bug exhibit): in the constructor's event trace the framebuffer
is zeroed (`fillBuf 0`) while the bus lock is still held — no `unlock` occurs
anywhere in the trace, and construction does not complete — contradicting the
claim that the lock is released first and the zero-and-flush happens after
that release. -/
theorem init_fill_before_any_unlock :
    Event.fillBuf 0 ∈ (init_events cfg128 false 2).1
    ∧ Event.unlock ∉ (init_events cfg128 false 2).1
    ∧ (init_events cfg128 false 2).2 = false := by decide

/-- C6 (code-bug exhibit): construction never completes, for any fuel: the
`show()` called from `_init_display` spins on `try_lock` while `__init__`
still holds the non-reentrant bus lock. -/
theorem init_never_completes (c : Cfg) (fuel : Nat) :
    (init_events c false fuel).2 = false := by
  cases fuel with
  | zero => rfl
  | succ n => simp [init_events, show_events, spin_free, spin_locked]

end SH1106

/-! ## Pixel read-back lemmas and the glyph box theorem (C7) -/

namespace SH1106

theorem set_oob : ∀ (l : Frame) (i v : Nat), l.length ≤ i → l.set i v = l
  | [], _, _, _ => rfl
  | _ :: _, 0, _, h => absurd h (by simp)
  | a :: l, i + 1, v, h => by
    show a :: l.set i v = a :: l
    rw [set_oob l i v (by simpa using h)]

theorem rowcol_unique (W p1 a1 p2 a2 : Nat) (ha1 : a1 < W) (ha2 : a2 < W)
    (e : p1 * W + a1 = p2 * W + a2) : p1 = p2 ∧ a1 = a2 := by
  have hW : 0 < W := by omega
  have h1 : (p1 * W + a1) / W = p1 := by
    rw [Nat.mul_comm, Nat.mul_add_div hW, Nat.div_eq_of_lt ha1, Nat.add_zero]
  have h2 : (p2 * W + a2) / W = p2 := by
    rw [Nat.mul_comm, Nat.mul_add_div hW, Nat.div_eq_of_lt ha2, Nat.add_zero]

  have hp : p1 = p2 := by rw [← h1, ← h2, e]
  subst hp
  exact ⟨rfl, by omega⟩

theorem testBit_write_same (b k : Nat) (hk : k < 8) :
    ((b ||| (1 <<< k)).testBit k = true)
    ∧ ((b &&& (0xFF ^^^ (1 <<< k))).testBit k = false) := by
  rw [Nat.shiftLeft_eq, one_mul]
  constructor
  · rw [Nat.testBit_or, Nat.testBit_two_pow_self]
    simp
  · rw [Nat.testBit_and, Nat.testBit_xor, Nat.testBit_two_pow_self, testBit_255 _ hk]
    simp

theorem testBit_write_other (b k1 k2 : Nat) (hk2 : k2 < 8) (hne : k1 ≠ k2) :
    ((b ||| (1 <<< k1)).testBit k2 = b.testBit k2)
    ∧ ((b &&& (0xFF ^^^ (1 <<< k1))).testBit k2 = b.testBit k2) := by
  rw [Nat.shiftLeft_eq, one_mul]
  constructor
  · rw [Nat.testBit_or, Nat.testBit_two_pow_of_ne hne, Bool.or_false]
  · rw [Nat.testBit_and, Nat.testBit_xor, Nat.testBit_two_pow_of_ne hne, testBit_255 _ hk2]
    simp

theorem readBit_testBit (c : Cfg) (buf : Frame) (x y : Int) :
    readBit c buf x y =
      if (byteAt buf (y.toNat / 8 * c.width + x.toNat)).testBit (y.toNat % 8) then 1 else 0 := by
  unfold readBit
  rw [shiftRight_and_one]

theorem readBit_pixel_eq (c : Cfg) (buf : Frame) (x y : Int) (col : Nat)
    (h : 0 ≤ x ∧ x < (c.width : Int) ∧ 0 ≤ y ∧ y < (c.height : Int))
    (h8 : c.height % 8 = 0) (hlen : buf.length = c.width * (c.height / 8)) :
    readBit c (pixel c buf x y col) x y = if col ≠ 0 then 1 else 0 := by
  have hidx : y.toNat / 8 * c.width + x.toNat < buf.length := by
    rw [hlen]; exact idx_lt c x y h h8
  have hbit : y.toNat % 8 < 8 := Nat.mod_lt _ (by norm_num)
  rw [pixel_in_range c buf x y col h, readBit_testBit]
  by_cases hc : col ≠ 0
  · simp only [if_pos hc]
    rw [set_getD_self _ _ _ hidx, and_seven, (testBit_write_same _ _ hbit).1]
    simp [hc]
  · simp only [if_neg hc]
    rw [set_getD_self _ _ _ hidx, and_seven, (testBit_write_same _ _ hbit).2]
    simp [hc]

theorem readBit_pixel_ne (c : Cfg) (buf : Frame) (x1 y1 : Int) (col : Nat) (x2 y2 : Int)
    (h2 : 0 ≤ x2 ∧ x2 < (c.width : Int) ∧ 0 ≤ y2 ∧ y2 < (c.height : Int))
    (hne : ¬(x1 = x2 ∧ y1 = y2)) :
    readBit c (pixel c buf x1 y1 col) x2 y2 = readBit c buf x2 y2 := by
  by_cases h1 : 0 ≤ x1 ∧ x1 < (c.width : Int) ∧ 0 ≤ y1 ∧ y1 < (c.height : Int)
  case neg => rw [pixel, if_neg h1]
  obtain ⟨hx20, hx2w, hy20, hy2h⟩ := h2
  obtain ⟨hx10, hx1w, hy10, hy1h⟩ := h1
  have hbit2 : y2.toNat % 8 < 8 := Nat.mod_lt _ (by norm_num)
  rw [pixel_in_range c buf x1 y1 col ⟨hx10, hx1w, hy10, hy1h⟩, readBit_testBit, readBit_testBit]
  by_cases hii : y1.toNat / 8 * c.width + x1.toNat = y2.toNat / 8 * c.width + x2.toNat
  · have hx1n : x1.toNat < c.width := by omega
    have hx2n : x2.toNat < c.width := by omega
    obtain ⟨hpp, hxx⟩ := rowcol_unique c.width _ _ _ _ hx1n hx2n hii
    have hxeq : x1 = x2 := by omega
    have hyne : y1 ≠ y2 := fun e => hne ⟨hxeq, e⟩
    have hbitne : y1.toNat % 8 ≠ y2.toNat % 8 := by omega
    rw [← hii]
    by_cases hc : col ≠ 0 <;>
      [skip; skip] <;> first
      | (simp only [if_pos hc]
         by_cases hlt : y1.toNat / 8 * c.width + x1.toNat < buf.length
         · rw [set_getD_self _ _ _ hlt, and_seven, (testBit_write_other _ _ _ hbit2 hbitne).1]
         · rw [set_oob _ _ _ (by omega)])
      | (simp only [if_neg hc]
         by_cases hlt : y1.toNat / 8 * c.width + x1.toNat < buf.length
         · rw [set_getD_self _ _ _ hlt, and_seven, (testBit_write_other _ _ _ hbit2 hbitne).2]
         · rw [set_oob _ _ _ (by omega)])
  · by_cases hc : col ≠ 0
    · simp only [if_pos hc]
      rw [set_getD_ne _ _ _ _ hii]
    · simp only [if_neg hc]
      rw [set_getD_ne _ _ _ _ hii]

end SH1106

namespace SH1106

theorem ite_and_one (n : Nat) : (if n &&& 1 ≠ 0 then 1 else 0) = n &&& 1 := by
  rw [Nat.and_one_is_mod]
  rcases Nat.mod_two_eq_zero_or_one n with h | h <;> simp [h]

theorem readBit_applyWrites (c : Cfg) (x y : Int)
    (h : 0 ≤ x ∧ x < (c.width : Int) ∧ 0 ≤ y ∧ y < (c.height : Int))
    (h8 : c.height % 8 = 0) :
    ∀ (ws : List (Int × Int × Nat)) (buf : Frame), buf.length = c.width * (c.height / 8) →
      readBit c (applyWrites c buf ws) x y =
        (match lastWrite x y ws with
          | some col => if col ≠ 0 then 1 else 0
          | none => readBit c buf x y) := by
  intro ws
  induction ws with
  | nil => intro buf _; rfl
  | cons w ws ih =>
    intro buf hlen
    have hlen2 : (pixel c buf w.1 w.2.1 w.2.2).length = c.width * (c.height / 8) := by
      rw [pixel_length]; exact hlen
    have happ : applyWrites c buf (w :: ws) = applyWrites c (pixel c buf w.1 w.2.1 w.2.2) ws := rfl
    rw [happ, ih _ hlen2]
    cases hlw : lastWrite x y ws with
    | some v => simp [lastWrite, hlw]
    | none =>
      simp only [lastWrite, hlw]
      by_cases hw : w.1 = x ∧ w.2.1 = y
      · rw [if_pos hw, ← hw.1, ← hw.2]
        exact readBit_pixel_eq c buf w.1 w.2.1 w.2.2 (by rw [hw.1, hw.2]; exact h) h8 hlen
      · rw [if_neg hw]
        exact readBit_pixel_ne c buf w.1 w.2.1 w.2.2 x y h hw

theorem blit_glyph_eq_applyWrites (c : Cfg) (buf : Frame) (x y : Int) (g : List Nat) :
    blit_glyph c buf x y g = applyWrites c buf (glyph_writes x y g) := by
  unfold blit_glyph applyWrites glyph_writes
  rw [List.foldl_flatten, List.foldl_map]
  congr 1

end SH1106

namespace SH1106

/-- C7 counterexample: the H glyph has a 0 cell at column 1, row 0.  Blitting
H at the origin over a framebuffer whose (1,0) pixel was previously set
clears that bit: the 0 cells of the bounding box are not left at their
pre-call values. -/
theorem blit_glyph_clears_zero_cell :
    Nat.testBit (byteAt (pixel cfg8 (List.replicate 8 0) 1 0 1) 1) 0 = true
    ∧ Nat.testBit (byteAt (blit_glyph cfg8 (pixel cfg8 (List.replicate 8 0) 1 0 1) 0 0
        [0x7F, 0x08, 0x08, 0x08, 0x7F]) 1) 0 = false := by decide

/-- C7 amended: for every glyph and every placement whose 5x7 bounding box is
fully on the panel, `blit_glyph` writes every cell of the box: the resulting
framebuffer bit at box cell (cx, bit) equals the glyph's bit there, so 1
cells are set and 0 cells are explicitly cleared regardless of the previous
framebuffer content. -/
theorem blit_glyph_writes_box (c : Cfg) (buf : Frame) (x y : Int)
    (g0 g1 g2 g3 g4 : Nat) (cx bit : Nat) (hcx : cx < 5) (hbit : bit < 7)
    (hx0 : 0 ≤ x) (hx : x + 4 < (c.width : Int)) (hy0 : 0 ≤ y) (hy : y + 6 < (c.height : Int))
    (h8 : c.height % 8 = 0) (hlen : buf.length = c.width * (c.height / 8)) :
    readBit c (blit_glyph c buf x y [g0, g1, g2, g3, g4]) (x + (cx : Int)) (y + (bit : Int))
      = (([g0, g1, g2, g3, g4].getD cx 0) >>> bit) &&& 1 := by
  have hin : 0 ≤ x + (cx : Int) ∧ x + (cx : Int) < (c.width : Int)
      ∧ 0 ≤ y + (bit : Int) ∧ y + (bit : Int) < (c.height : Int) :=
    ⟨by omega, by omega, by omega, by omega⟩
  rw [blit_glyph_eq_applyWrites, readBit_applyWrites c _ _ hin h8 _ buf hlen]
  interval_cases cx <;> interval_cases bit <;>
    simp [glyph_writes, lastWrite] <;> split <;> omega

end SH1106

namespace SH1106

/-- Witness for the amended C7: H glyph at the origin of the 8x8
configuration, box cell (1, 0). -/
theorem blit_glyph_writes_box_witness :
    readBit cfg8 (blit_glyph cfg8 (List.replicate 8 0) 0 0 [0x7F, 0x08, 0x08, 0x08, 0x7F])
        (0 + ((1 : Nat) : Int)) (0 + ((0 : Nat) : Int))
      = (([0x7F, 0x08, 0x08, 0x08, 0x7F].getD 1 0) >>> 0) &&& 1 :=
  blit_glyph_writes_box cfg8 (List.replicate 8 0) 0 0 0x7F 0x08 0x08 0x08 0x7F 1 0
    (by decide) (by decide) (by decide) (by decide) (by decide) (by decide) (by decide)
    (by rw [List.length_replicate]; rfl)

end SH1106
